import Mathlib

/-!
# Verification of the MoniSenForest validation / state-classification core

Shallow embedding of the growth-state classifier
(`MoniSenForest/tree_data_transform.py`, `moni1000f/tree_data_transform.py`),
the cell classifier and Smirnov–Grubbs outlier detector
(`moni1000f/datacheck.py`), the `check_all` control flow and exception
filtering (`moni1000f/datacheck.py`), and the export cleaning pipeline
(`moni1000f/base.py`).

Modelling conventions:
* cells are Lean `String`s; the specific regular expressions the code uses
  (always applied through `find_pattern`, i.e. `re.match`, anchored at the
  start of the string) are transliterated into explicit pattern functions;
* floating point numbers are modelled as `ℚ`; `NaN` is modelled as `none`
  in `Option ℚ` (numpy comparisons with NaN are false, which is modelled
  explicitly where it matters);
* Unicode NFKC normalization is modelled as the identity, which is exact on
  the ASCII fragment over which the theorems below evaluate the pipeline;
* `str(np.float32 x)` (float re-formatting in `clean_float`) is kept as an
  abstract function parameter: every concrete evaluation below provably
  avoids that branch, and the positive theorems assume only properties that
  the real numpy formatting satisfies;
* the Student-t critical ratio in `smirnov_grubbs` is transcendental; the
  stopping test `tau_far < tau` is kept as an abstract boolean parameter,
  and every theorem about the detector holds for all such tests.
-/

namespace MoniSen

/-- Characters removed by the last step of `clean_data`
(`re.sub("\r\n|\n|\r|\t|\x0b|\x0c", "", x)`, base.py line 473).  Deleting
every occurrence of those alternatives is the same as deleting every
occurrence of the five single characters. -/
def isCtl (c : Char) : Bool :=
  c = '\r' || c = '\n' || c = '\t' || c = Char.ofNat 11 || c = Char.ofNat 12

/-- Whitespace for Python's `str.strip()` and the regex class `\s`,
restricted to the ASCII range modelled here. -/
def isPySpace (c : Char) : Bool :=
  c = ' ' || c = '\t' || c = '\n' || c = '\r' || c = Char.ofNat 11 || c = Char.ofNat 12

/-- Python `str.strip()` on the modelled character range. -/
def pyStrip (s : List Char) : List Char :=
  ((s.dropWhile isPySpace).reverse.dropWhile isPySpace).reverse

/-- Digit list to natural number (most significant first). -/
def digitsToNat (ds : List Char) : ℕ :=
  ds.foldl (fun a c => 10 * a + (c.toNat - 48)) 0

/-- Split a leading run of ASCII digits. -/
def takeDigits (s : List Char) : List Char × List Char :=
  (s.takeWhile Char.isDigit, s.dropWhile Char.isDigit)

/-- Exponent part of the Python float grammar: either nothing, or
`[eE][+-]?digits` consuming the whole remainder. -/
def parseExp (s : List Char) (m : ℚ) : Option ℚ :=
  match s with
  | [] => some m
  | c :: r =>
    if c = 'e' ∨ c = 'E' then
      let (sg, r2) : ℤ × List Char :=
        match r with
        | '+' :: t => (1, t)
        | '-' :: t => (-1, t)
        | t => (1, t)
      let (ds, r3) := takeDigits r2
      if ds.isEmpty ∨ ¬ r3.isEmpty then none
      else some (m * (10 : ℚ) ^ (sg * (digitsToNat ds : ℤ)))
    else none

/-- Unsigned mantissa of the Python float grammar:
`digits [. digits] [exp]` or `. digits [exp]`. -/
def parseUnsigned (s : List Char) : Option ℚ :=
  let (ip, r1) := takeDigits s
  match r1 with
  | '.' :: r2 =>
      let (fp, r3) := takeDigits r2
      if ip.isEmpty ∧ fp.isEmpty then none
      else parseExp r3 ((digitsToNat ip : ℚ) + (digitsToNat fp : ℚ) / 10 ^ fp.length)
  | _ => if ip.isEmpty then none else parseExp r1 (digitsToNat ip)

/-- Model of Python `float(string)` on the finite decimal grammar
(surrounding whitespace, optional sign, digits, decimal point, exponent).
`none` models a `ValueError`.  The spellings `nan`/`inf` and underscore
separators, which the census data never contains, are not modelled and
also map to `none` (a missing value). -/
def pyFloat (s0 : List Char) : Option ℚ :=
  match pyStrip s0 with
  | '+' :: r => parseUnsigned r
  | '-' :: r => (parseUnsigned r).map Neg.neg
  | r => parseUnsigned r

/-! ## Anchored regular-expression models

`find_pattern(s, pat)` (datacheck.py lines 662-670) is `re.match`, i.e. an
anchored match at the start of the string.  Each pattern the classifier
uses is transliterated below. -/

/-- `find_pattern(s, "^nd")`. -/
def matchND (s : String) : Bool :=
  match s.data with
  | 'n' :: 'd' :: _ => true
  | _ => false

/-- `find_pattern(s, "^cd|^vi|^vn")`. -/
def matchCdViVn (s : String) : Bool :=
  match s.data with
  | 'c' :: 'd' :: _ => true
  | 'v' :: 'i' :: _ => true
  | 'v' :: 'n' :: _ => true
  | _ => false

/-- `find_pattern(s, "^dd")`. -/
def matchDD (s : String) : Bool :=
  match s.data with
  | 'd' :: 'd' :: _ => true
  | _ => false

/-- `find_pattern(s, "^(?<![nd])d(?![d])")`: anchored at position 0 the
lookbehind is vacuous, so this is "starts with `d` not followed by `d`". -/
def matchDead1 (s : String) : Bool :=
  match s.data with
  | 'd' :: 'd' :: _ => false
  | 'd' :: _ => true
  | _ => false

/-- `find_pattern(s, r"(?<![nd])d(?![d])\s?([0-9]+[.]?[0-9]*)")` through
`re.match`: starts with `d`, not followed by another `d`, then an optional
single whitespace and at least one digit (the rest of the group always
matches once a digit is found). -/
def matchDxx (s : String) : Bool :=
  match s.data with
  | 'd' :: c :: rest =>
    if c = 'd' then false
    else if c.isDigit then true
    else if isPySpace c then
      match rest with
      | c2 :: _ => c2.isDigit
      | [] => false
    else false
  | _ => false

/-- `pattern_except.sub("", s)` for `"^nd|^cd|^vi|^vn"`: the anchored
alternation matches at most once, at position 0, so one leading annotation
token is stripped. -/
def stripAnnot (s : String) : String :=
  match s.data with
  | 'n' :: 'd' :: rest => ⟨rest⟩
  | 'c' :: 'd' :: rest => ⟨rest⟩
  | 'v' :: 'i' :: rest => ⟨rest⟩
  | 'v' :: 'n' :: rest => ⟨rest⟩
  | _ => s

/-- `isvalid(x, "^nd|^cd|^vi|^vn", return_value=True)` (datacheck.py lines
649-659): strip the leading annotation, then `float` the remainder, the
empty remainder and unparseable remainders giving NaN (`none`). -/
def isvalidValue (s : String) : Option ℚ :=
  pyFloat (stripAnnot s).data

/-! ## Dead-code pipeline (tree_data_transform.py lines 62-76) -/

/-- `fill_after(x, val, fill)` (tree_data_transform.py lines 11-29):
everything strictly after the first occurrence of `val` is replaced by
`fill`; a row without `val` is returned unchanged. -/
def fill_after : List ℤ → ℤ → ℤ → List ℤ
  | [], _, _ => []
  | x :: xs, val, fill =>
    if x = val then x :: xs.map (fun _ => fill)
    else x :: fill_after xs val fill

/-- The dead-normalization loop (lines 63-69): every cell matching the
dead-with-residual pattern is rewritten to `"na"` when the previous cell of
the original row also matched, and to `"d"` otherwise.  The match matrix is
computed on the original row before any rewriting, as in the source. -/
def deadNormalizeRow (row : List String) : List String :=
  (List.range row.length).map (fun j =>
    if matchDxx (row.getD j "") then
      if 0 < j ∧ matchDxx (row.getD (j - 1) "") then "na" else "d"
    else row.getD j "")

/-- Per-cell dead code before forward filling:
`dead1 + dead2` (lines 71-74). -/
def deadCode (s : String) : ℤ :=
  (if matchDead1 s then 1 else 0) + (if matchDD s then 2 else 0)

/-- One row of the derived dead-code array of `add_state_columns`:
normalize `dxx` cells, code them, then `fill_after(x, 1, 2)` (lines 62-76). -/
def deadRow (row : List String) : List ℤ :=
  fill_after ((deadNormalizeRow row).map deadCode) 1 2

/-- Per-cell error code, `error1 + error2` (lines 56-60). -/
def errorCode (s : String) : ℤ :=
  (if matchND s then 1 else 0) + (if matchCdViVn s then 2 else 0)

/-- One row of the derived error-code array of `add_state_columns`. -/
def errorRow (row : List String) : List ℤ :=
  row.map errorCode

/-- One row of the cleaned numeric girth values (`values_c`, lines 51-53),
computed from the original cells before the dead normalization, as in the
source (`values.copy()`). -/
def cleanedRow (row : List String) : List (Option ℚ) :=
  row.map isvalidValue

/-! ## Recruit-code pipeline (tree_data_transform.py lines 78-109) -/

/-- `np.less(x, 15.7, where=~np.isnan(x))` (line 79).  For a NaN entry the
numpy output is uninitialized; every use of `below_cutoff` in the source
or-combines it with `np.isnan(values_c)`, so the NaN case is immaterial and
modelled as `false`. -/
def belowCutoff (v : Option ℚ) : Bool :=
  match v with
  | some q => decide (q < 157 / 10)
  | none => false

/-- `np.isnan(values_c) | below_cutoff`, the per-census state whose changes
drive recruit detection (line 88). -/
def mbState (v : Option ℚ) : Bool :=
  v.isNone || belowCutoff v

/-- `np.apply_along_axis(np.diff, 1, ...)` on a boolean array is
elementwise xor of consecutive entries (line 88). -/
def changeState (v : List (Option ℚ)) (j : ℕ) : Bool :=
  mbState (v.getD j none) != mbState (v.getD (j + 1) none)

/-- Numpy `>` on possibly-NaN floats: any comparison with NaN is false
(line 93, `values_c[i, j] > values_c[i, j + 1]`). -/
def pyGT : Option ℚ → Option ℚ → Bool
  | some a, some b => decide (b < a)
  | _, _ => false

/-- `recl[i, :k] = val`: replace the first `k` entries by `val`. -/
def setSlice (val : ℤ) : ℕ → List ℤ → List ℤ
  | _, [] => []
  | 0, l => l
  | k + 1, _ :: xs => val :: setSlice val k xs

/-- The recruit girth bound `15.7 + 3.8 + yrs_diff[j] * 2.5` (line 97). -/
def recrThreshold (yd : ℚ) : ℚ :=
  157 / 10 + 38 / 10 + yd * (5 / 2)

/-- Body of the recruit loop for one pair `(j, j+1)` of censuses of one row
(lines 90-107); applied only where `change_state` holds.  `vj1.getD 0` is
only reached on the branch where `values_c[i, j+1]` is not NaN. -/
def recrStep (v : List (Option ℚ)) (err : List ℤ) (yrsDiff : List ℚ)
    (j : ℕ) (recr : List ℤ) : List ℤ :=
  let vj := v.getD j none
  let vj1 := v.getD (j + 1) none
  if vj1.isNone then recr
  else if pyGT vj vj1 then recr
  else if (recr.take (j + 1)).count 1 = 0 then
    if err.getD j 0 = 0 ∧ err.getD (j + 1) 0 = 0 then
      if vj1.getD 0 < recrThreshold (yrsDiff.getD j 0) then
        setSlice (-1) (j + 1) (recr.set (j + 1) 1)
      else if ¬ vj.isNone then
        setSlice (-1) (j + 1) (recr.set (j + 1) 1)
      else if 0 < (recr.take (j + 1)).count (-1) then
        setSlice (-1) j recr
      else recr
    else if err.getD j 0 = 1 then
      if 0 < (recr.take (j + 1)).count (-1) then
        setSlice (-1) ((err.take (j + 1)).findIdx (fun e => e == 1)) recr
      else recr
    else recr
  else recr

/-- First-census initialization of the recruit row (lines 82-86): start
from zeros and set column 0 to `-1` when the individual starts below the
cutoff, missing, or dead (`dead == 1`), with no error at that census. -/
def recrRowInit (v : List (Option ℚ)) (err dead : List ℤ) : List ℤ :=
  let z : List ℤ := List.replicate v.length 0
  if (belowCutoff (v.getD 0 none) || (v.getD 0 none).isNone
        || decide (dead.getD 0 0 = 1))
      && decide (err.getD 0 0 = 0) then
    z.set 0 (-1)
  else z

/-- The recruit loop over consecutive census pairs of one row:
`np.where(change_state)` enumerates the pair indices of a row in ascending
order (lines 90-107). -/
def recrRowLoop (v : List (Option ℚ)) (err : List ℤ) (yrsDiff : List ℚ)
    (init : List ℤ) : List ℤ :=
  (List.range (v.length - 1)).foldl
    (fun recr j => if changeState v j then recrStep v err yrsDiff j recr else recr)
    init

/-- One row of the derived recruit-code array of `add_state_columns`:
the whole per-row pipeline from the raw girth cells. -/
def recrRow (row : List String) (yrsDiff : List ℚ) : List ℤ :=
  recrRowLoop (cleanedRow row) (errorRow row) yrsDiff
    (recrRowInit (cleanedRow row) (errorRow row) (deadRow row))

/-- The full per-row output of `add_state_columns` (error, dead and recruit
codes plus the cleaned numeric series). -/
def add_state_columns_row (row : List String) (yrsDiff : List ℚ) :
    List ℤ × List ℤ × List ℤ × List (Option ℚ) :=
  (errorRow row, deadRow row, recrRow row yrsDiff, cleanedRow row)

/-! ## Smirnov-Grubbs outlier detector (datacheck.py lines 739-761)

The input sample is a list of possibly-NaN floats (`Option ℚ`); the working
sample `xs` starts as the non-NaN entries.  The critical-ratio stopping test
`tau_far < tau` involves the transcendental Student-t quantile, so it is
kept abstract: `test n mu var far` models `np.abs((far - mu) / sd) < tau`
for a working sample of size `n`.  `sd == 0` is equivalent to a zero
(ddof = 1) variance, which is how the guard is modelled.  The loop is
written with explicit fuel; `none` models non-termination, and the
termination theorem shows fuel `xs.length + 1` always suffices. -/

/-- `xs.mean()`. -/
def sgMean (xs : List ℚ) : ℚ :=
  xs.sum / xs.length

/-- `xs.std(ddof=1) ** 2`: the sample variance with denominator `n - 1`.
`xs.std(ddof=1) == 0` holds exactly when this is `0`. -/
def sgVar (xs : List ℚ) : ℚ :=
  ((xs.map (fun v => (v - sgMean xs) ^ 2)).sum) / ((xs.length : ℚ) - 1)

/-- `far = xs.max() if np.abs(xs.max() - mu) > np.abs(xs.min() - mu) else
xs.min()` (line 754); the `getD 0` defaults are never reached since the
loop guarantees `xs` nonempty. -/
def sgFar (xs : List ℚ) : ℚ :=
  let mu := sgMean xs
  let mx := xs.max?.getD 0
  let mn := xs.min?.getD 0
  if |mx - mu| > |mn - mu| then mx else mn

/-- `np.where(x == far)[0]`: the positions of the original sample holding
exactly the value `far`; NaN entries (`none`) never compare equal. -/
def sgFlagged (x : List (Option ℚ)) (far : ℚ) : List ℕ :=
  (List.range x.length).filter (fun i => x.getD i none == some far)

/-- The `while True` loop of `smirnov_grubbs` (lines 745-759), with fuel.
Per pass: stop (keeping the accumulated outlier indices) when fewer than 5
values remain, when the sample variance is zero, or when the extreme value
fails the critical-ratio test; otherwise flag every original position equal
to `far` and delete every occurrence of `far` from the working sample. -/
def sgLoop (test : ℕ → ℚ → ℚ → ℚ → Bool) (x : List (Option ℚ)) :
    ℕ → List ℚ → List ℕ → Option (List ℕ)
  | 0, _, _ => none
  | fuel + 1, xs, iOut =>
    if xs.length < 5 then some iOut
    else if sgVar xs = 0 then some iOut
    else if test xs.length (sgMean xs) (sgVar xs) (sgFar xs) then some iOut
    else
      sgLoop test x fuel (xs.filter (fun v => !(v == sgFar xs)))
        (iOut ++ sgFlagged x (sgFar xs))

/-- `smirnov_grubbs(x)`: run the loop on the non-NaN entries and return the
boolean mask `[True if i in i_out else False for i in range(len(x))]`. -/
def smirnov_grubbs (test : ℕ → ℚ → ℚ → ℚ → Bool) (x : List (Option ℚ)) :
    List Bool :=
  let xs := x.filterMap id
  let iOut := (sgLoop test x (xs.length + 1) xs []).getD []
  (List.range x.length).map (fun i => decide (i ∈ iOut))

/-! ## Error records, check_all control flow and exception filtering
(datacheck.py) -/

/-- The `ErrorDat` dataclass (datacheck.py lines 21-26).  A Python
dataclass compares by field values, which is the derived `DecidableEq`. -/
structure ErrorDat where
  plot_id : String
  rec_id1 : String
  rec_id2 : String
  err_type : String
deriving DecidableEq

/-- Control flow of `CheckDataLitter.check_all` (datacheck.py lines
564-582), parametrized by the error list each individual check would
produce: run the invalid-date check first and return immediately when it
found anything; otherwise append the results of the remaining checks in
order.  (`mask_invalid_values` mutates state between checks and returns no
errors; the parametrization treats each check's output as given.) -/
def litterCheckAll (invalidDate trapDateComb instPeriod1 instPeriod2
    instPeriod3 blank invalidValues positive anomaly : List ErrorDat) :
    List ErrorDat :=
  let errors := invalidDate
  if errors ≠ [] then errors
  else
    errors ++ trapDateComb ++ instPeriod1 ++ instPeriod2 ++ instPeriod3 ++
      blank ++ invalidValues ++ positive ++ anomaly

/-- Control flow of `CheckDataTree.check_all` (datacheck.py lines 411-432):
every check runs unconditionally and its errors are appended in order; the
local-name check runs only with `throughly=True`. -/
def treeCheckAll (invalidDate spNotInList synonym tagDup spMismatch meshXY
    stemXY blank invalidValues missing valuesAfterD anomaly valuesRecruits
    valuesND localName : List ErrorDat) (throughly : Bool) : List ErrorDat :=
  invalidDate ++ spNotInList ++ synonym ++ tagDup ++ spMismatch ++ meshXY ++
    stemXY ++ blank ++ invalidValues ++ missing ++ valuesAfterD ++ anomaly ++
    valuesRecruits ++ valuesND ++ (if throughly then localName else [])

/-- `get_except_list(path, plot_id)` (datacheck.py lines 764-771) after the
file has been read into records: keep the entries of the given plot when a
plot id is supplied. -/
def getExceptList (entries : List ErrorDat) (plotId : String) : List ErrorDat :=
  if plotId ≠ "" then entries.filter (fun e => e.plot_id == plotId) else entries

/-- The exception-filtering tail of `check_data` (datacheck.py lines
836-843): when an exception-list path was supplied and errors were found,
keep exactly the error records that are not members (Python `in`, value
equality) of the plot-filtered exception list; otherwise return the errors
unchanged. -/
def applyExceptList (hasPathExcept : Bool) (exceptEntries : List ErrorDat)
    (plotId : String) (errors : List ErrorDat) : List ErrorDat :=
  if hasPathExcept ∧ errors ≠ [] then
    errors.filter (fun e => decide (e ∉ getExceptList exceptEntries plotId))
  else errors

/-! ## Export cleaning (base.py lines 452-523)

`clean_data` is `np.vectorize` of a per-cell pipeline: strip, NFKC
normalization, `clean_float`, `datetime_to_yyyymmdd`, control-character
removal.  `datetime.strptime` raises an uncaught `ValueError` on a
pattern-matching but out-of-range date, so the per-cell pipeline is
`Option`-valued, `none` modelling that exception. -/

/-- `unicodedata.normalize("NFKC", x)`: modelled as the identity, which is
exact on the ASCII fragment over which this development evaluates the
pipeline. -/
def nfkcNormalize (s : List Char) : List Char := s

/-- `re.sub("\r\n|\n|\r|\t|\x0b|\x0c", "", x)` (base.py line 473). -/
def removeCtl (s : List Char) : List Char :=
  s.filter (fun c => !(isCtl c))

/-- Model of Python `int(string)` acceptance: surrounding whitespace, an
optional sign and at least one digit (underscore separators, which the
data never contains, are not modelled). -/
def pyIntAccepts (s : List Char) : Bool :=
  let t := pyStrip s
  let t' := if t.headD ' ' = '+' ∨ t.headD ' ' = '-' then t.tail else t
  !t'.isEmpty && t'.all Char.isDigit

/-- `clean_float(x, precision="single")` (base.py lines 478-505): an
integer string is returned unchanged; otherwise a float-parseable string
is re-formatted through `str(np.float32(x))`, modelled by the abstract
`f32`; otherwise the string is returned unchanged. -/
def clean_float (f32 : List Char → List Char) (x : List Char) : List Char :=
  if pyIntAccepts x then x
  else if (pyFloat x).isSome then f32 x
  else x

/-- Value of a two-digit group. -/
def digit2 (a b : Char) : ℕ :=
  (a.toNat - 48) * 10 + (b.toNat - 48)

/-- Value of a four-digit group. -/
def digit4 (a b c d : Char) : ℕ :=
  digit2 a b * 100 + digit2 c d

/-- Gregorian leap year, as validated by `datetime`. -/
def isLeap (y : ℕ) : Bool :=
  (y % 4 = 0 && y % 100 ≠ 0) || y % 400 = 0

/-- Days in a month, as validated by `datetime`. -/
def daysInMonth (y m : ℕ) : ℕ :=
  if m = 2 then (if isLeap y then 29 else 28)
  else if m = 4 ∨ m = 6 ∨ m = 9 ∨ m = 11 then 30
  else 31

/-- Anchored match of `(\d{4}-\d{2}-\d{2}\s\d{2}:\d{2}:\d{2})` through
`re.match` (base.py lines 515-516): a shape test on the first 19
characters, the rest of the string being unconstrained. -/
def dtMatches (s : List Char) : Bool :=
  decide (19 ≤ s.length) &&
  (s.getD 0 ' ').isDigit && (s.getD 1 ' ').isDigit &&
  (s.getD 2 ' ').isDigit && (s.getD 3 ' ').isDigit &&
  s.getD 4 ' ' == '-' &&
  (s.getD 5 ' ').isDigit && (s.getD 6 ' ').isDigit &&
  s.getD 7 ' ' == '-' &&
  (s.getD 8 ' ').isDigit && (s.getD 9 ' ').isDigit &&
  isPySpace (s.getD 10 ' ') &&
  (s.getD 11 ' ').isDigit && (s.getD 12 ' ').isDigit &&
  s.getD 13 ' ' == ':' &&
  (s.getD 14 ' ').isDigit && (s.getD 15 ' ').isDigit &&
  s.getD 16 ' ' == ':' &&
  (s.getD 17 ' ').isDigit && (s.getD 18 ' ').isDigit

/-- The range validation `strptime` performs on a matched datetime group
(year ≥ 1, month 1-12, day within the Gregorian month, hour ≤ 23,
minute/second ≤ 59). -/
def dtValidB (s : List Char) : Bool :=
  decide (1 ≤ digit4 (s.getD 0 ' ') (s.getD 1 ' ') (s.getD 2 ' ') (s.getD 3 ' ') ∧
    1 ≤ digit2 (s.getD 5 ' ') (s.getD 6 ' ') ∧
    digit2 (s.getD 5 ' ') (s.getD 6 ' ') ≤ 12 ∧
    1 ≤ digit2 (s.getD 8 ' ') (s.getD 9 ' ') ∧
    digit2 (s.getD 8 ' ') (s.getD 9 ' ')
      ≤ daysInMonth
          (digit4 (s.getD 0 ' ') (s.getD 1 ' ') (s.getD 2 ' ') (s.getD 3 ' '))
          (digit2 (s.getD 5 ' ') (s.getD 6 ' ')) ∧
    digit2 (s.getD 11 ' ') (s.getD 12 ' ') ≤ 23 ∧
    digit2 (s.getD 14 ' ') (s.getD 15 ' ') ≤ 59 ∧
    digit2 (s.getD 17 ' ') (s.getD 18 ' ') ≤ 59)

/-- The `strftime("%Y%m%d")` output: the eight date digits of the matched
group. -/
def dtOut (s : List Char) : List Char :=
  [s.getD 0 ' ', s.getD 1 ' ', s.getD 2 ' ', s.getD 3 ' ',
   s.getD 5 ' ', s.getD 6 ' ', s.getD 8 ' ', s.getD 9 ' ']

/-- `datetime_to_yyyymmdd(s)` (base.py lines 508-522): when the datetime
pattern matches the start of the string, `strptime` validates the matched
group and the cell is replaced by the eight date digits; an out-of-range
date raises an uncaught `ValueError` (`none`).  A non-matching cell is
returned unchanged.  (`strptime` lets the literal space of the format
match any `\s`, so the separator itself never raises.) -/
def datetime_to_yyyymmdd (s : List Char) : Option (List Char) :=
  if dtMatches s then
    if dtValidB s then some (dtOut s) else none
  else some s

/-- The per-cell pipeline of `clean_data` (base.py lines 452-475), in the
source's order: strip, NFKC, `clean_float`, `datetime_to_yyyymmdd`,
control-character removal.  `f32` abstracts `str(np.float32(x))`. -/
def clean_cell (f32 : List Char → List Char) (x : List Char) :
    Option (List Char) :=
  let s1 := pyStrip x
  let s2 := nfkcNormalize s1
  let s3 := clean_float f32 s2
  (datetime_to_yyyymmdd s3).map removeCtl

/-- Concrete stand-in for `str(np.float32(x))`, used only to close
statements whose evaluation provably never reaches the float-reformatting
branch (see `clean_cell_f32_irrelevant`). -/
def float32Str : List Char → List Char := fun s => s

/-! # Theorems -/

/-! ## Dead-code latch (C1) and dead normalization (C4) -/

theorem fill_after_length (x : List ℤ) (val fill : ℤ) :
    (fill_after x val fill).length = x.length := by
  induction x with
  | nil => rfl
  | cons a xs ih =>
    simp only [fill_after]
    by_cases h : a = val <;> simp [h, ih]

theorem fill_after_latch (x : List ℤ) :
    ∀ k l : ℕ, (fill_after x 1 2)[k]? = some 1 → k < l → l < x.length →
      (fill_after x 1 2)[l]? = some 2 := by
  induction x with
  | nil =>
    intro k l _ _ hl
    simp at hl
  | cons a xs ih =>
    intro k l hk hkl hl
    by_cases h : a = 1
    · rw [fill_after, if_pos h]
      rw [fill_after, if_pos h] at hk
      obtain ⟨l', rfl⟩ : ∃ l', l = l' + 1 := ⟨l - 1, by omega⟩
      have hl' : l' < xs.length := by
        simpa [Nat.succ_lt_succ_iff] using hl
      rw [List.getElem?_cons_succ, List.getElem?_map,
        List.getElem?_eq_getElem hl']
      rfl
    · rw [fill_after, if_neg h]
      rw [fill_after, if_neg h] at hk
      match k, hk with
      | 0, hk =>
        rw [List.getElem?_cons_zero] at hk
        exact absurd (Option.some_injective _ hk) h
      | k' + 1, hk =>
        obtain ⟨l', rfl⟩ : ∃ l', l = l' + 1 := ⟨l - 1, by omega⟩
        rw [List.getElem?_cons_succ] at hk ⊢
        have hl' : l' < xs.length := by
          simpa [Nat.succ_lt_succ_iff] using hl
        exact ih k' l' hk (by omega) hl'

theorem deadRow_length (row : List String) :
    (deadRow row).length = row.length := by
  rw [deadRow, fill_after_length, List.length_map, deadNormalizeRow,
    List.length_map, List.length_range]

/-- C1 (counterexample): for the girth row `["dd", "12.0"]` the derived
dead-code row of `add_state_columns` is `[2, 0]`: a non-zero dead code (2,
from `dd`) stands at column 0, yet column 1 is coded 0, not 2.  The
forward fill of the source latches only on the value 1, so the claim that
any non-zero dead code (in particular a 2) forces 2 on all later columns
is false. -/
theorem dead_latch_counterexample :
    deadRow ["dd", "12.0"] = [2, 0] ∧
    (deadRow ["dd", "12.0"])[0]? = some 2 ∧
    (deadRow ["dd", "12.0"])[1]? ≠ some 2 := by
  refine ⟨by decide, by decide, by decide⟩

/-- C1 (amended): in every row processed by `add_state_columns`, once dead
code 1 (a bare `d`) appears at some column k of the derived dead-code row,
every column after k is coded 2.  (A dead code 2 coming from `dd` with no
preceding code 1 does not latch.) -/
theorem dead_latch_after_one (row : List String) (k l : ℕ)
    (hk : (deadRow row)[k]? = some 1) (hkl : k < l)
    (hl : l < (deadRow row).length) :
    (deadRow row)[l]? = some 2 := by
  rw [deadRow] at hk ⊢
  refine fill_after_latch _ k l hk hkl ?_
  rw [deadRow, fill_after_length] at hl
  exact hl

theorem dead_latch_after_one_witness :
    (deadRow ["d", "15.0", "16.0"])[0]? = some 1 ∧
    (deadRow ["d", "15.0", "16.0"])[2]? = some 2 :=
  ⟨by decide,
    dead_latch_after_one ["d", "15.0", "16.0"] 0 2 (by decide) (by decide)
      (by decide)⟩

/-- C4: the dead-then-residual scenario: the row
`["gbh10"=12.0, "gbh11"="d 8.5", "gbh12"="na"]` yields dead codes
`[0, 1, 2]` and cleaned values `[12.0, missing, missing]`; and in general a
cell matching the dead-with-residual pattern is rewritten to `na` exactly
when the immediately preceding column of the original row also matched the
pattern, and to bare `d` otherwise. -/
theorem dead_residual_normalization :
    deadRow ["12.0", "d 8.5", "na"] = [0, 1, 2] ∧
    cleanedRow ["12.0", "d 8.5", "na"] = [some 12, none, none] ∧
    ∀ (row : List String) (j : ℕ), j < row.length →
      matchDxx (row.getD j "") = true →
      (deadNormalizeRow row)[j]? =
        some (if 0 < j ∧ matchDxx (row.getD (j - 1) "") then "na" else "d") := by
  refine ⟨by decide, ?_, ?_⟩
  · have h : cleanedRow ["12.0", "d 8.5", "na"]
        = [some (((12 : ℕ) : ℚ) + ((0 : ℕ) : ℚ) / 10 ^ 1), none, none] := rfl
    rw [h]
    norm_num
  · intro row j hj hm
    rw [deadNormalizeRow, List.getElem?_map, List.getElem?_range hj,
      Option.map_some']
    rw [if_pos hm]

theorem dead_residual_normalization_witness :
    (deadNormalizeRow ["d1", "d2"])[1]? = some "na" := by
  have h := dead_residual_normalization.2.2 ["d1", "d2"] 1 (by decide) (by decide)
  exact h.trans (by decide)

/-! ## Recruit-code uniqueness (C2) and non-growth skipping (C3) -/

theorem count_setSlice_le (val c : ℤ) (h : val ≠ c) (k : ℕ) (l : List ℤ) :
    (setSlice val k l).count c ≤ l.count c := by
  induction k generalizing l with
  | zero => cases l <;> simp [setSlice]
  | succ k ih =>
    cases l with
    | nil => simp [setSlice]
    | cons a xs =>
      rw [show setSlice val (k + 1) (a :: xs) = val :: setSlice val k xs from rfl]
      have hval : (val == c) = false := by simpa using h
      have hcons : (val :: setSlice val k xs).count c = (setSlice val k xs).count c := by
        rw [List.count_cons, hval]
        simp
      rw [hcons, List.count_cons]
      have hx := ih xs
      split <;> omega

theorem getElem?_setSlice_ne (val c : ℤ) (h : val ≠ c) (k : ℕ) (l : List ℤ)
    (p : ℕ) (hp : (setSlice val k l)[p]? = some c) : l[p]? = some c := by
  induction k generalizing l p with
  | zero =>
    cases l with
    | nil => simp [setSlice] at hp
    | cons a xs =>
      simp only [setSlice] at hp
      exact hp
  | succ k ih =>
    cases l with
    | nil => simp [setSlice] at hp
    | cons a xs =>
      rw [show setSlice val (k + 1) (a :: xs) = val :: setSlice val k xs from rfl] at hp
      cases p with
      | zero =>
        rw [List.getElem?_cons_zero] at hp
        exact absurd (Option.some_injective _ hp) h
      | succ p =>
        rw [List.getElem?_cons_succ] at hp ⊢
        exact ih xs p hp

theorem count_set_le (l : List ℤ) (n : ℕ) (a : ℤ) :
    (l.set n a).count a ≤ l.count a + 1 := by
  induction l generalizing n with
  | nil => simp
  | cons b xs ih =>
    cases n with
    | zero =>
      rw [List.set_cons_zero, List.count_cons, List.count_cons]
      have : (a == a) = true := by simp
      rw [this]
      split <;> omega
    | succ n =>
      rw [List.set_cons_succ, List.count_cons, List.count_cons]
      have := ih n
      split <;> omega

theorem no_one_of_prefix_guard (recr : List ℤ) (j : ℕ)
    (hguard : (recr.take (j + 1)).count 1 = 0)
    (hpos : ∀ p : ℕ, recr[p]? = some 1 → p ≤ j) :
    ∀ p : ℕ, recr[p]? ≠ some 1 := by
  intro p hp
  have hpj : p < j + 1 := Nat.lt_succ_of_le (hpos p hp)
  have htake : (recr.take (j + 1))[p]? = some 1 := by
    rw [List.getElem?_take, if_pos hpj]
    exact hp
  obtain ⟨hn, he⟩ := List.getElem?_eq_some.mp htake
  exact List.count_eq_zero.mp hguard (he ▸ List.getElem_mem hn)

theorem count_one_eq_zero_of_no_one (recr : List ℤ)
    (hno : ∀ p : ℕ, recr[p]? ≠ some 1) : recr.count 1 = 0 := by
  rw [List.count_eq_zero]
  intro hmem
  obtain ⟨n, hn, he⟩ := List.mem_iff_getElem.mp hmem
  exact hno n (by rw [List.getElem?_eq_getElem hn, he])

theorem recrStep_inv (v : List (Option ℚ)) (err : List ℤ) (yd : List ℚ)
    (j : ℕ) (recr : List ℤ) (h1 : recr.count 1 ≤ 1)
    (hpos : ∀ p : ℕ, recr[p]? = some 1 → p ≤ j) :
    (recrStep v err yd j recr).count 1 ≤ 1 ∧
      ∀ p : ℕ, (recrStep v err yd j recr)[p]? = some 1 → p ≤ j + 1 := by
  have hmono : ∀ p : ℕ, recr[p]? = some 1 → p ≤ j + 1 := fun p hp =>
    Nat.le_succ_of_le (hpos p hp)
  simp only [recrStep]
  split
  · exact ⟨h1, hmono⟩
  split
  · exact ⟨h1, hmono⟩
  split
  case isFalse => exact ⟨h1, hmono⟩
  case isTrue hguard =>
    have hno := no_one_of_prefix_guard recr j hguard hpos
    have hzero := count_one_eq_zero_of_no_one recr hno
    have hwrite : ((setSlice (-1) (j + 1) (recr.set (j + 1) 1)).count 1 ≤ 1 ∧
        ∀ p : ℕ, (setSlice (-1) (j + 1) (recr.set (j + 1) 1))[p]? = some 1 →
          p ≤ j + 1) := by
      constructor
      · calc (setSlice (-1) (j + 1) (recr.set (j + 1) 1)).count 1
            ≤ (recr.set (j + 1) 1).count 1 := count_setSlice_le _ _ (by decide) _ _
          _ ≤ recr.count 1 + 1 := count_set_le _ _ _
          _ = 1 := by omega
      · intro p hp
        have hset := getElem?_setSlice_ne _ _ (by decide) _ _ _ hp
        by_cases hpj : p = j + 1
        · omega
        · rw [List.getElem?_set_ne (fun h => hpj h.symm)] at hset
          exact absurd hset (hno p)
    have hslice : ∀ k : ℕ, ((setSlice (-1) k recr).count 1 ≤ 1 ∧
        ∀ p : ℕ, (setSlice (-1) k recr)[p]? = some 1 → p ≤ j + 1) := by
      intro k
      refine ⟨le_trans (count_setSlice_le _ _ (by decide) _ _) h1, ?_⟩
      intro p hp
      exact hmono p (getElem?_setSlice_ne _ _ (by decide) _ _ _ hp)
    split
    · split
      · exact hwrite
      split
      · exact hwrite
      split
      · exact hslice j
      · exact ⟨h1, hmono⟩
    split
    · split
      · exact hslice _
      · exact ⟨h1, hmono⟩
    · exact ⟨h1, hmono⟩

theorem recrRowLoop_inv (v : List (Option ℚ)) (err : List ℤ) (yd : List ℚ)
    (init : List ℤ) (hinit : ∀ p : ℕ, init[p]? ≠ some 1) (n : ℕ) :
    (((List.range n).foldl
        (fun recr j => if changeState v j then recrStep v err yd j recr else recr)
        init).count 1 ≤ 1) ∧
      ∀ p : ℕ, ((List.range n).foldl
          (fun recr j => if changeState v j then recrStep v err yd j recr else recr)
          init)[p]? = some 1 → p ≤ n := by
  induction n with
  | zero =>
    refine ⟨by simpa using le_trans (le_of_eq (count_one_eq_zero_of_no_one init hinit)) (by omega), ?_⟩
    intro p hp
    rw [List.range_zero, List.foldl_nil] at hp
    exact absurd hp (hinit p)
  | succ n ih =>
    rw [List.range_succ, List.foldl_append, List.foldl_cons, List.foldl_nil]
    by_cases hc : changeState v n
    · rw [if_pos hc]
      exact recrStep_inv v err yd n _ ih.1 ih.2
    · rw [if_neg hc]
      exact ⟨ih.1, fun p hp => Nat.le_succ_of_le (ih.2 p hp)⟩

theorem recrRowInit_no_one (v : List (Option ℚ)) (err dead : List ℤ) :
    ∀ p : ℕ, (recrRowInit v err dead)[p]? ≠ some 1 := by
  intro p hp
  obtain ⟨hn, he⟩ := List.getElem?_eq_some.mp hp
  have hmem : (1 : ℤ) ∈ recrRowInit v err dead := he ▸ List.getElem_mem hn
  unfold recrRowInit at hmem
  split at hmem
  · rcases List.mem_or_eq_of_mem_set hmem with hmem' | h1
    · exact absurd (List.eq_of_mem_replicate hmem') (by decide)
    · exact absurd h1 (by decide)
  · exact absurd (List.eq_of_mem_replicate hmem) (by decide)

/-- C2: in every row processed by `add_state_columns`, the derived
recruit-code row contains the value 1 at most once: once recruit = 1 has
been assigned, the guard `recl[i, :(j+1)] == 1` prevents any later census
pair of the same row from assigning 1 again, so the final row holds at
most one 1. -/
theorem recr_code_one_unique (row : List String) (yrsDiff : List ℚ) :
    (recrRow row yrsDiff).count 1 ≤ 1 := by
  unfold recrRow recrRowLoop
  exact (recrRowLoop_inv (cleanedRow row) (errorRow row) yrsDiff _
    (recrRowInit_no_one (cleanedRow row) (errorRow row) (deadRow row)) _).1

/-- C3: in the recruit detection of `add_state_columns`, a consecutive
census pair whose (missing-or-below-cutoff) state changes and whose
cleaned values are both present is skipped — the recruit row is left
untouched — whenever the later value is not strictly greater than the
former; an equal pair in particular never assigns a recruit code (equal
present values cannot even change state). -/
theorem recr_pair_skip (row : List String) (yrsDiff : List ℚ) (j : ℕ)
    (recr : List ℤ) (a b : ℚ)
    (ha : (cleanedRow row).getD j none = some a)
    (hb : (cleanedRow row).getD (j + 1) none = some b)
    (hchange : changeState (cleanedRow row) j = true)
    (hng : ¬ a < b) :
    recrStep (cleanedRow row) (errorRow row) yrsDiff j recr = recr := by
  rcases lt_or_eq_of_le (not_lt.mp hng) with hlt | heq
  · unfold recrStep
    rw [ha, hb]
    simp [pyGT, hlt]
  · exfalso
    rw [changeState, ha, hb, heq] at hchange
    simp at hchange

theorem recr_pair_skip_witness :
    recrStep (cleanedRow ["16.0", "12.0"]) (errorRow ["16.0", "12.0"]) [1] 0
      [0, 0] = [0, 0] := by
  have hc : cleanedRow ["16.0", "12.0"] = [some 16, some 12] := by
    have h : cleanedRow ["16.0", "12.0"]
        = [some (((16 : ℕ) : ℚ) + ((0 : ℕ) : ℚ) / 10 ^ 1),
           some (((12 : ℕ) : ℚ) + ((0 : ℕ) : ℚ) / 10 ^ 1)] := rfl
    rw [h]
    norm_num
  refine recr_pair_skip ["16.0", "12.0"] [1] 0 [0, 0] 16 12 ?_ ?_ ?_ (by norm_num)
  · rw [hc]
    rfl
  · rw [hc]
    rfl
  · rw [hc, changeState]
    simp only [List.getD_cons_zero, List.getD_cons_succ, mbState, belowCutoff,
      Option.isNone_some, Bool.false_or]
    rw [show decide ((16 : ℚ) < 157 / 10) = false from by norm_num,
      show decide ((12 : ℚ) < 157 / 10) = true from by norm_num]
    rfl

/-! ## Smirnov-Grubbs: stopping masks (C5), one extreme value per pass
(C6), termination (C10) -/

theorem sgMax_getD_mem (xs : List ℚ) (h : xs ≠ []) : xs.max?.getD 0 ∈ xs := by
  rcases hm : xs.maximum with _ | a
  · exact absurd hm (List.maximum_ne_bot_of_ne_nil h)
  · have he : xs.max?.getD 0 = a := by
      rw [List.getD_max?_eq_unbot'_maximum, hm]
      rfl
    rw [he]
    exact List.maximum_mem hm

theorem sgMin_getD_mem (xs : List ℚ) (h : xs ≠ []) : xs.min?.getD 0 ∈ xs := by
  rcases hm : xs.minimum with _ | a
  · exact absurd hm (List.minimum_ne_top_of_ne_nil h)
  · have he : xs.min?.getD 0 = a := by
      rw [List.getD_min?_eq_untop'_minimum, hm]
      rfl
    rw [he]
    exact List.minimum_mem hm

theorem sgFar_mem (xs : List ℚ) (h : xs ≠ []) : sgFar xs ∈ xs := by
  simp only [sgFar]
  split
  · exact sgMax_getD_mem xs h
  · exact sgMin_getD_mem xs h

theorem sgFar_extreme (xs : List ℚ) (h : xs ≠ []) (v : ℚ) (hv : v ∈ xs) :
    |v - sgMean xs| ≤ |sgFar xs - sgMean xs| := by
  rcases hm : xs.maximum with _ | a
  · exact absurd hm (List.maximum_ne_bot_of_ne_nil h)
  rcases hn : xs.minimum with _ | b
  · exact absurd hn (List.minimum_ne_top_of_ne_nil h)
  have hmax : xs.max?.getD 0 = a := by
    rw [List.getD_max?_eq_unbot'_maximum, hm]
    rfl
  have hmin : xs.min?.getD 0 = b := by
    rw [List.getD_min?_eq_untop'_minimum, hn]
    rfl
  have hva : v ≤ a := List.le_maximum_of_mem hv hm
  have hbv : b ≤ v := List.minimum_le_of_mem hv hn
  simp only [sgFar, hmax, hmin]
  split
  case isTrue hcmp =>
    rw [abs_le]
    constructor <;>
      linarith [le_abs_self (a - sgMean xs), neg_abs_le (b - sgMean xs), hcmp.le]
  case isFalse hcmp =>
    have hle : |a - sgMean xs| ≤ |b - sgMean xs| := not_lt.mp hcmp
    rw [abs_le]
    constructor <;>
      linarith [le_abs_self (a - sgMean xs), neg_abs_le (b - sgMean xs)]

theorem sg_filter_length_lt (xs : List ℚ) (h5 : 5 ≤ xs.length) :
    (xs.filter (fun v => !(v == sgFar xs))).length < xs.length := by
  have hne : xs ≠ [] := by
    intro he
    rw [he] at h5
    simp at h5
  refine List.length_filter_lt_length_iff_exists.mpr
    ⟨sgFar xs, sgFar_mem xs hne, ?_⟩
  simp

theorem sgLoop_isSome (test : ℕ → ℚ → ℚ → ℚ → Bool) (x : List (Option ℚ)) :
    ∀ (fuel : ℕ) (xs : List ℚ) (iOut : List ℕ), xs.length < fuel →
      (sgLoop test x fuel xs iOut).isSome = true := by
  intro fuel
  induction fuel with
  | zero => intro xs iOut h; omega
  | succ fuel ih =>
    intro xs iOut h
    rw [sgLoop]
    split
    · rfl
    split
    · rfl
    split
    · rfl
    case isFalse h5 _ _ =>
      refine ih _ _ ?_
      have := sg_filter_length_lt xs (by omega)
      omega

theorem sgLoop_flagged_sources (test : ℕ → ℚ → ℚ → ℚ → Bool)
    (x : List (Option ℚ)) :
    ∀ (fuel : ℕ) (xs : List ℚ) (iOut iOut' : List ℕ),
      sgLoop test x fuel xs iOut = some iOut' →
      ∀ i : ℕ, i ∈ iOut' → i ∈ iOut ∨ x.getD i none ≠ none := by
  intro fuel
  induction fuel with
  | zero => intro xs iOut iOut' h; exact absurd h (by simp [sgLoop])
  | succ fuel ih =>
    intro xs iOut iOut' h i hi
    rw [sgLoop] at h
    split at h
    · cases h; exact Or.inl hi
    split at h
    · cases h; exact Or.inl hi
    split at h
    · cases h; exact Or.inl hi
    · rcases ih _ _ _ h i hi with hmem | hx
      · rcases List.mem_append.mp hmem with hmem' | hflag
        · exact Or.inl hmem'
        · refine Or.inr ?_
          have := (List.mem_filter.mp hflag).2
          intro hnone
          rw [hnone] at this
          simp at this
      · exact Or.inr hx

/-- C5: `smirnov_grubbs` returns an all-false mask whenever fewer than 5
non-missing values are present, and whenever the non-missing values have
zero (sample) variance, i.e. zero standard deviation; and a missing (NaN)
position of the input is never flagged. -/
theorem smirnov_grubbs_stop_mask (test : ℕ → ℚ → ℚ → ℚ → Bool)
    (x : List (Option ℚ)) :
    ((x.filterMap id).length < 5 →
      smirnov_grubbs test x = List.replicate x.length false) ∧
    (sgVar (x.filterMap id) = 0 →
      smirnov_grubbs test x = List.replicate x.length false) ∧
    ∀ i : ℕ, x.getD i none = none →
      (smirnov_grubbs test x).getD i false = false := by
  have hmask : ∀ iOut : List ℕ, (∀ i : ℕ, i ∉ iOut) →
      (List.range x.length).map (fun i => decide (i ∈ iOut))
        = List.replicate x.length false := by
    intro iOut hno
    rw [show (fun i => decide (i ∈ iOut)) = fun _ : ℕ => false by
      funext i
      simpa using hno i]
    rw [List.map_const', List.length_range]
  refine ⟨?_, ?_, ?_⟩
  · intro h5
    rw [smirnov_grubbs, sgLoop, if_pos h5]
    exact hmask [] (by simp)
  · intro hvar
    by_cases h5 : (x.filterMap id).length < 5
    · rw [smirnov_grubbs, sgLoop, if_pos h5]
      exact hmask [] (by simp)
    · rw [smirnov_grubbs, sgLoop, if_neg h5, if_pos hvar]
      exact hmask [] (by simp)
  · intro i hnan
    obtain ⟨iOut', hsome⟩ := Option.isSome_iff_exists.mp
      (sgLoop_isSome test x ((x.filterMap id).length + 1) (x.filterMap id) []
        (Nat.lt_succ_self _))
    rw [smirnov_grubbs, hsome]
    by_cases hi : i < x.length
    · rw [List.getD_eq_getElem?_getD, List.getElem?_map, List.getElem?_range hi]
      have : i ∉ iOut' := by
        intro hmem
        rcases sgLoop_flagged_sources test x _ _ _ _ hsome i hmem with h0 | hx
        · simp at h0
        · exact hx hnan
      simp [this]
    · rw [List.getD_eq_getElem?_getD, List.getElem?_map]
      rw [List.getElem?_eq_none (by simpa using not_lt.mp hi)]
      rfl

theorem smirnov_grubbs_stop_mask_witness :
    smirnov_grubbs (fun _ _ _ _ => false) [some 1, none, some 2]
      = [false, false, false] ∧
    smirnov_grubbs (fun _ _ _ _ => false)
      [some 3, some 3, some 3, some 3, some 3, none]
      = [false, false, false, false, false, false] ∧
    (smirnov_grubbs (fun _ _ _ _ => false) [some 1, none, some 2]).getD 1 false
      = false := by
  have hvar : sgVar (([some 3, some 3, some 3, some 3, some 3, none] :
      List (Option ℚ)).filterMap id) = 0 := by
    rw [show (([some 3, some 3, some 3, some 3, some 3, none] :
        List (Option ℚ)).filterMap id) = [3, 3, 3, 3, 3] from rfl]
    norm_num [sgVar, sgMean, List.sum_cons, List.sum_nil]
  refine ⟨?_, ?_, ?_⟩
  · exact ((smirnov_grubbs_stop_mask (fun _ _ _ _ => false)
      [some 1, none, some 2]).1 (by decide)).trans (by decide)
  · exact ((smirnov_grubbs_stop_mask (fun _ _ _ _ => false)
      [some 3, some 3, some 3, some 3, some 3, none]).2.1 hvar).trans (by decide)
  · exact (smirnov_grubbs_stop_mask (fun _ _ _ _ => false)
      [some 1, none, some 2]).2.2 1 rfl

/-- C6: a pass of the `smirnov_grubbs` loop that stops at none of the
three guards flags exactly the original positions holding the single most
extreme remaining value `far` (by absolute deviation from the mean) and
removes exactly the occurrences of `far` from the working sample before
the next pass. -/
theorem smirnov_grubbs_step (test : ℕ → ℚ → ℚ → ℚ → Bool)
    (x : List (Option ℚ)) (fuel : ℕ) (xs : List ℚ) (iOut : List ℕ)
    (h5 : 5 ≤ xs.length) (hvar : sgVar xs ≠ 0)
    (htest : test xs.length (sgMean xs) (sgVar xs) (sgFar xs) = false) :
    sgLoop test x (fuel + 1) xs iOut
      = sgLoop test x fuel (xs.filter (fun v => !(v == sgFar xs)))
          (iOut ++ sgFlagged x (sgFar xs)) ∧
    sgFar xs ∈ xs ∧
    (∀ v ∈ xs, |v - sgMean xs| ≤ |sgFar xs - sgMean xs|) ∧
    (∀ i : ℕ, i ∈ sgFlagged x (sgFar xs) ↔
      i < x.length ∧ x.getD i none = some (sgFar xs)) ∧
    ∀ v : ℚ, v ∈ xs.filter (fun w => !(w == sgFar xs)) ↔ v ∈ xs ∧ v ≠ sgFar xs := by
  have hne : xs ≠ [] := by
    intro he
    rw [he] at h5
    simp at h5
  refine ⟨?_, sgFar_mem xs hne, fun v hv => sgFar_extreme xs hne v hv, ?_, ?_⟩
  · rw [sgLoop, if_neg (by omega), if_neg hvar, if_neg (by rw [htest]; simp)]
  · intro i
    simp [sgFlagged, List.mem_filter, List.mem_range]
  · intro v
    simp [List.mem_filter]

theorem smirnov_grubbs_step_witness :
    sgFar ([0, 0, 0, 0, 100] : List ℚ) ∈ ([0, 0, 0, 0, 100] : List ℚ) ∧
    sgLoop (fun _ _ _ _ => false) [some 0, none, some 100] 6 [0, 0, 0, 0, 100] []
      = sgLoop (fun _ _ _ _ => false) [some 0, none, some 100] 5
          (([0, 0, 0, 0, 100] : List ℚ).filter
            (fun v => !(v == sgFar [0, 0, 0, 0, 100])))
          ([] ++ sgFlagged [some 0, none, some 100] (sgFar [0, 0, 0, 0, 100])) := by
  have hvar : sgVar ([0, 0, 0, 0, 100] : List ℚ) ≠ 0 := by
    norm_num [sgVar, sgMean, List.sum_cons, List.sum_nil]
  have h := smirnov_grubbs_step (fun _ _ _ _ => false) [some 0, none, some 100]
    5 [0, 0, 0, 0, 100] [] (by decide) hvar rfl
  exact ⟨h.2.1, h.1⟩

/-- C10: `smirnov_grubbs` terminates on every finite input: a fuel of one
more than the working-sample size always suffices, because every pass that
passes all three stopping guards removes at least the selected extreme
value (a member of the working sample) and hence strictly shrinks it. -/
theorem smirnov_grubbs_terminates :
    (∀ (test : ℕ → ℚ → ℚ → ℚ → Bool) (x : List (Option ℚ)),
      (sgLoop test x ((x.filterMap id).length + 1) (x.filterMap id) []).isSome
        = true) ∧
    ∀ xs : List ℚ, 5 ≤ xs.length →
      sgFar xs ∈ xs ∧
        (xs.filter (fun v => !(v == sgFar xs))).length < xs.length :=
  ⟨fun test x => sgLoop_isSome test x _ _ _ (Nat.lt_succ_self _),
   fun xs h5 =>
    ⟨sgFar_mem xs (by rintro rfl; simp at h5), sg_filter_length_lt xs h5⟩⟩

theorem smirnov_grubbs_terminates_witness :
    sgFar ([1, 2, 3, 4, 50] : List ℚ) ∈ ([1, 2, 3, 4, 50] : List ℚ) ∧
    (([1, 2, 3, 4, 50] : List ℚ).filter
        (fun v => !(v == sgFar [1, 2, 3, 4, 50]))).length
      < ([1, 2, 3, 4, 50] : List ℚ).length :=
  smirnov_grubbs_terminates.2 [1, 2, 3, 4, 50] (by decide)

/-! ## check_all control flow (C7) and exception filtering (C8) -/

/-- C7 (counterexample): the litter validator's `check_all` does not run
its remaining checks once the invalid-date check has found an error: with
one date error present and a later check (blank cells) reporting an error,
the returned list is exactly the date errors and the later check's error
is absent from it. -/
theorem litter_date_stop_counterexample :
    litterCheckAll [⟨"AB-BC1", "20200101", "", "bad date"⟩] [] [] [] []
        [⟨"AB-BC1", "t1", "", "blank cell"⟩] [] [] []
      = [⟨"AB-BC1", "20200101", "", "bad date"⟩] ∧
    (⟨"AB-BC1", "t1", "", "blank cell"⟩ : ErrorDat) ∉
      litterCheckAll [⟨"AB-BC1", "20200101", "", "bad date"⟩] [] [] [] []
        [⟨"AB-BC1", "t1", "", "blank cell"⟩] [] [] [] :=
  ⟨by decide, by decide⟩

/-- C7 (amended): rule-check failures are accumulated into the returned
error list, with one exception to "never stops the remaining rules": the
tree validator's `check_all` always returns the concatenation of all of
its checks' results, while the litter validator's `check_all` does so only
when the invalid-date check found nothing, and otherwise returns the date
errors alone, skipping every remaining check. -/
theorem check_all_accumulates :
    (∀ d r2 r3 r4 r5 r6 r7 r8 r9 : List ErrorDat, d ≠ [] →
      litterCheckAll d r2 r3 r4 r5 r6 r7 r8 r9 = d) ∧
    (∀ r2 r3 r4 r5 r6 r7 r8 r9 : List ErrorDat,
      litterCheckAll [] r2 r3 r4 r5 r6 r7 r8 r9
        = [] ++ r2 ++ r3 ++ r4 ++ r5 ++ r6 ++ r7 ++ r8 ++ r9) ∧
    ∀ (t1 t2 t3 t4 t5 t6 t7 t8 t9 t10 t11 t12 t13 t14 t15 : List ErrorDat)
      (th : Bool) (e : ErrorDat),
      e ∈ treeCheckAll t1 t2 t3 t4 t5 t6 t7 t8 t9 t10 t11 t12 t13 t14 t15 th ↔
        e ∈ t1 ∨ e ∈ t2 ∨ e ∈ t3 ∨ e ∈ t4 ∨ e ∈ t5 ∨ e ∈ t6 ∨ e ∈ t7 ∨
          e ∈ t8 ∨ e ∈ t9 ∨ e ∈ t10 ∨ e ∈ t11 ∨ e ∈ t12 ∨ e ∈ t13 ∨
          e ∈ t14 ∨ (th = true ∧ e ∈ t15) := by
  refine ⟨?_, ?_, ?_⟩
  · intro d r2 r3 r4 r5 r6 r7 r8 r9 hd
    simp only [litterCheckAll]
    rw [if_pos hd]
  · intro r2 r3 r4 r5 r6 r7 r8 r9
    simp only [litterCheckAll]
    rw [if_neg (by simp)]
  · intro t1 t2 t3 t4 t5 t6 t7 t8 t9 t10 t11 t12 t13 t14 t15 th e
    cases th <;> simp [treeCheckAll, List.mem_append, or_assoc]

theorem check_all_accumulates_witness :
    litterCheckAll [⟨"p", "a", "", "k"⟩] [] [] [] [] [] [] []
        [⟨"p", "b", "", "k2"⟩]
      = [⟨"p", "a", "", "k"⟩] :=
  check_all_accumulates.1 [⟨"p", "a", "", "k"⟩] [] [] [] [] [] [] []
    [⟨"p", "b", "", "k2"⟩] (by decide)

theorem errorDat_eq_iff (f e : ErrorDat) :
    f = e ↔ f.plot_id = e.plot_id ∧ f.rec_id1 = e.rec_id1 ∧
      f.rec_id2 = e.rec_id2 ∧ f.err_type = e.err_type := by
  cases f
  cases e
  simp

/-- C8: with an exception-list path supplied, `check_data` keeps exactly
the error records that are not value-equal (same plot, primary key, target
and kind) to some entry of the exception list filtered to the plot; the
kept records stay in their original order (the result is a sublist of the
input); and without an exception-list path the error list is returned
unchanged. -/
theorem exception_filtering (ex : List ErrorDat) (plot : String)
    (errors : List ErrorDat) :
    (∀ e : ErrorDat, e ∈ applyExceptList true ex plot errors ↔
      e ∈ errors ∧ ¬ ∃ f ∈ getExceptList ex plot,
        f.plot_id = e.plot_id ∧ f.rec_id1 = e.rec_id1 ∧
          f.rec_id2 = e.rec_id2 ∧ f.err_type = e.err_type) ∧
    (applyExceptList true ex plot errors).Sublist errors ∧
    applyExceptList false ex plot errors = errors := by
  have hiff : ∀ e : ErrorDat,
      (∃ f ∈ getExceptList ex plot, f.plot_id = e.plot_id ∧
        f.rec_id1 = e.rec_id1 ∧ f.rec_id2 = e.rec_id2 ∧
          f.err_type = e.err_type) ↔ e ∈ getExceptList ex plot := by
    intro e
    constructor
    · rintro ⟨f, hf, h1, h2, h3, h4⟩
      rwa [(errorDat_eq_iff f e).mpr ⟨h1, h2, h3, h4⟩] at hf
    · intro he
      exact ⟨e, he, rfl, rfl, rfl, rfl⟩
  refine ⟨?_, ?_, ?_⟩
  · intro e
    rw [hiff e]
    by_cases herr : errors = []
    · subst herr
      simp [applyExceptList]
    · rw [applyExceptList, if_pos ⟨rfl, herr⟩, List.mem_filter]
      simp only [decide_eq_true_eq]
  · rw [applyExceptList]
    split
    · exact List.filter_sublist _
    · exact List.Sublist.refl _
  · rw [applyExceptList, if_neg (by simp)]

/-! ## Export cleaning: non-idempotence of clean_data (C9) -/

theorem clean_cell_f32_irrelevant (f32 : List Char → List Char) :
    clean_cell f32 "2020\r-01-02 03:04:05".data
        = clean_cell float32Str "2020\r-01-02 03:04:05".data ∧
    clean_cell f32 "2020-01-02 03:04:05".data
        = clean_cell float32Str "2020-01-02 03:04:05".data :=
  ⟨rfl, rfl⟩

/-- C9 (counterexample): `clean_data` is not idempotent on every cell: the
control-character removal runs after the datetime rewriting, so for the
cell `"2020\r-01-02 03:04:05"` the first pass fails the datetime pattern
(the `\r` splits it) but strips the `\r`, giving
`"2020-01-02 03:04:05"`; a second pass then matches the pattern and
rewrites the cell to `"20200102"`. -/
theorem clean_cell_counterexample :
    clean_cell float32Str "2020\r-01-02 03:04:05".data
      = some "2020-01-02 03:04:05".data ∧
    (clean_cell float32Str "2020\r-01-02 03:04:05".data).bind
        (clean_cell float32Str)
      = some "20200102".data ∧
    (clean_cell float32Str "2020\r-01-02 03:04:05".data).bind
        (clean_cell float32Str)
      ≠ clean_cell float32Str "2020\r-01-02 03:04:05".data :=
  ⟨by decide, by decide, by decide⟩

theorem dropWhile_eq_self_of_all (p : Char → Bool) (l : List Char)
    (h : ∀ c ∈ l, p c = false) : l.dropWhile p = l := by
  cases l with
  | nil => rfl
  | cons a t =>
    rw [List.dropWhile_cons, if_neg (by simp [h a (List.mem_cons_self a t)])]

theorem pyStrip_eq_self_of_all (l : List Char)
    (h : ∀ c ∈ l, isPySpace c = false) : pyStrip l = l := by
  rw [pyStrip, dropWhile_eq_self_of_all _ _ h,
    dropWhile_eq_self_of_all _ _ (fun c hc => h c (List.mem_reverse.mp hc)),
    List.reverse_reverse]

theorem pyStrip_mem (l : List Char) (c : Char) (hc : c ∈ pyStrip l) : c ∈ l := by
  rw [pyStrip] at hc
  have h1 := List.mem_reverse.mp hc
  have h2 := (List.dropWhile_sublist isPySpace).subset h1
  have h3 := List.mem_reverse.mp h2
  exact (List.dropWhile_sublist isPySpace).subset h3

theorem dropWhile_back_front (p : Char → Bool) (u : List Char)
    (hu : u.dropWhile p = u) :
    ((u.reverse.dropWhile p).reverse).dropWhile p
      = (u.reverse.dropWhile p).reverse := by
  cases u with
  | nil => rfl
  | cons a t =>
    have hpa : p a = false := by
      by_contra hpa'
      have hpa : p a = true := by simpa using hpa'
      have hlen := congrArg List.length hu
      rw [List.dropWhile_cons, if_pos hpa] at hlen
      have hle : (t.dropWhile p).length ≤ t.length :=
        (List.dropWhile_sublist p).length_le
      simp at hlen
      omega
    rw [show (a :: t).reverse = t.reverse ++ [a] from by simp,
      List.dropWhile_append]
    by_cases he : (t.reverse.dropWhile p).isEmpty
    · rw [if_pos he]
      rw [show List.dropWhile p [a] = [a] from by
        rw [List.dropWhile_cons, if_neg (by simp [hpa])]]
      rw [List.reverse_singleton, List.dropWhile_cons, if_neg (by simp [hpa])]
    · rw [if_neg he, List.reverse_append, List.reverse_singleton,
        List.singleton_append, List.dropWhile_cons, if_neg (by simp [hpa])]

theorem pyStrip_idem (l : List Char) : pyStrip (pyStrip l) = pyStrip l := by
  have h1 : (pyStrip l).dropWhile isPySpace = pyStrip l :=
    dropWhile_back_front isPySpace (l.dropWhile isPySpace)
      (List.dropWhile_idempotent isPySpace l)
  rw [show pyStrip (pyStrip l)
      = (((pyStrip l).dropWhile isPySpace).reverse.dropWhile isPySpace).reverse
    from rfl]
  rw [h1]
  rw [show (pyStrip l).reverse
      = (l.dropWhile isPySpace).reverse.dropWhile isPySpace from by
    rw [pyStrip, List.reverse_reverse]]
  rw [List.dropWhile_idempotent]
  rw [pyStrip]

theorem isCtl_eq_false_of_isDigit (c : Char) (h : c.isDigit = true) :
    isCtl c = false := by
  cases hc : isCtl c
  · rfl
  · exfalso
    simp only [isCtl, Bool.or_eq_true, decide_eq_true_eq] at hc
    rcases hc with ((((rfl | rfl) | rfl) | rfl) | rfl) <;>
      exact absurd h (by decide)

theorem isPySpace_eq_false_of_isDigit (c : Char) (h : c.isDigit = true) :
    isPySpace c = false := by
  cases hc : isPySpace c
  · rfl
  · exfalso
    simp only [isPySpace, Bool.or_eq_true, decide_eq_true_eq] at hc
    rcases hc with (((((rfl | rfl) | rfl) | rfl) | rfl) | rfl) <;>
      exact absurd h (by decide)

theorem getD_mem_of_lt (l : List Char) (n : ℕ) (d : Char)
    (h : n < l.length) : l.getD n d ∈ l := by
  rw [List.getD_eq_getElem?_getD, List.getElem?_eq_getElem h]
  exact List.getElem_mem h

theorem pyIntAccepts_of_digits (l : List Char) (hne : l ≠ [])
    (hall : ∀ c ∈ l, c.isDigit = true) : pyIntAccepts l = true := by
  have hstrip : pyStrip l = l :=
    pyStrip_eq_self_of_all l
      (fun c hc => isPySpace_eq_false_of_isDigit c (hall c hc))
  obtain ⟨a, t, rfl⟩ := List.exists_cons_of_ne_nil hne
  have ha : a.isDigit = true := hall a (List.mem_cons_self a t)
  simp only [pyIntAccepts, hstrip, List.headD_cons]
  rw [if_neg (by rintro (rfl | rfl) <;> exact absurd ha (by decide))]
  simp only [List.isEmpty_cons, Bool.not_false, Bool.true_and]
  rw [List.all_eq_true]
  exact hall

theorem dt_id_of_int (l : List Char) (hstrip : pyStrip l = l)
    (hint : pyIntAccepts l = true) : datetime_to_yyyymmdd l = some l := by
  rw [datetime_to_yyyymmdd, if_neg ?_]
  intro hdt
  simp only [dtMatches, Bool.and_eq_true, decide_eq_true_eq, beq_iff_eq,
    and_assoc] at hdt
  obtain ⟨h19, h0, h1, h2, h3, hd1, h5, h6, hd2, h8, h9, hsp, h11, h12, hc1,
    h14, h15, hc2, h17, h18⟩ := hdt
  simp only [pyIntAccepts, hstrip] at hint
  by_cases hsign : l.headD ' ' = '+' ∨ l.headD ' ' = '-'
  · have hhead : l.getD 0 ' ' = l.headD ' ' := by
      cases l with
      | nil => rfl
      | cons a t => rfl
    rcases hsign with hs | hs <;> rw [hhead, hs] at h0 <;>
      exact absurd h0 (by decide)
  · rw [if_neg hsign] at hint
    have hall := (Bool.and_eq_true _ _).mp hint
    have halld := List.all_eq_true.mp hall.2
    have h4mem : l.getD 4 ' ' ∈ l := getD_mem_of_lt l 4 ' ' (by omega)
    have h4d := halld _ h4mem
    rw [hd1] at h4d
    exact absurd h4d (by decide)

theorem dtMatches_digits (l : List Char) (h : dtMatches l = true) :
    ∀ c ∈ dtOut l, c.isDigit = true := by
  simp only [dtMatches, Bool.and_eq_true, decide_eq_true_eq, beq_iff_eq,
    and_assoc] at h
  obtain ⟨h19, h0, h1, h2, h3, hd1, h5, h6, hd2, h8, h9, hsp, h11, h12, hc1,
    h14, h15, hc2, h17, h18⟩ := h
  intro c hc
  simp only [dtOut, List.mem_cons, List.not_mem_nil, or_false] at hc
  rcases hc with rfl | rfl | rfl | rfl | rfl | rfl | rfl | rfl <;> assumption

/-- C9 (amended): the per-cell cleaning pipeline of `clean_data` is
idempotent on every cell containing none of the control characters it
strips (CR, LF, TAB, VT, FF), for any float re-formatting `f32` that is
itself stable under the pipeline (idempotent, whitespace-stripped, no
control characters and never datetime-shaped, as `str(np.float32 · )`
is).  On cells containing such characters, idempotence fails, as the
counterexample shows, because the characters are removed only after the
numeric and datetime rewriting steps. -/
theorem clean_cell_idempotent (f32 : List Char → List Char)
    (hfi : ∀ s, f32 (f32 s) = f32 s)
    (hfs : ∀ s, pyStrip (f32 s) = f32 s)
    (hfd : ∀ s, datetime_to_yyyymmdd (f32 s) = some (f32 s))
    (hfc : ∀ s, removeCtl (f32 s) = f32 s)
    (x : List Char) (hx : removeCtl x = x) :
    (clean_cell f32 x).bind (clean_cell f32) = clean_cell f32 x := by
  have hxall : ∀ c ∈ x, isCtl c = false := by
    intro c hc
    simpa using List.filter_eq_self.mp hx c hc
  have hs1strip : pyStrip (pyStrip x) = pyStrip x := pyStrip_idem x
  have hs1ctl : removeCtl (pyStrip x) = pyStrip x :=
    List.filter_eq_self.mpr
      (fun c hc => by simpa using hxall c (pyStrip_mem x c hc))
  have hcc : ∀ (g : List Char → List Char) (y : List Char),
      clean_cell g y
        = (datetime_to_yyyymmdd (clean_float g (pyStrip y))).map removeCtl :=
    fun g y => rfl
  by_cases hint : pyIntAccepts (pyStrip x) = true
  · have hcf : clean_float f32 (pyStrip x) = pyStrip x := by
      rw [clean_float, if_pos hint]
    have hdt : datetime_to_yyyymmdd (pyStrip x) = some (pyStrip x) :=
      dt_id_of_int (pyStrip x) hs1strip hint
    have h1 : clean_cell f32 x = some (pyStrip x) := by
      rw [hcc f32 x, hcf, hdt, Option.map_some', hs1ctl]
    rw [h1, Option.some_bind, hcc f32 (pyStrip x), hs1strip, hcf, hdt,
      Option.map_some', hs1ctl]
  · by_cases hfl : (pyFloat (pyStrip x)).isSome = true
    · have hcf : clean_float f32 (pyStrip x) = f32 (pyStrip x) := by
        rw [clean_float, if_neg hint, if_pos hfl]
      have h1 : clean_cell f32 x = some (f32 (pyStrip x)) := by
        rw [hcc f32 x, hcf, hfd (pyStrip x), Option.map_some', hfc (pyStrip x)]
      have hcf2 : clean_float f32 (f32 (pyStrip x)) = f32 (pyStrip x) := by
        rw [clean_float]
        by_cases hint2 : pyIntAccepts (f32 (pyStrip x)) = true
        · rw [if_pos hint2]
        · rw [if_neg hint2]
          by_cases hfl2 : (pyFloat (f32 (pyStrip x))).isSome = true
          · rw [if_pos hfl2, hfi (pyStrip x)]
          · rw [if_neg hfl2]
      rw [h1, Option.some_bind, hcc f32 (f32 (pyStrip x)), hfs (pyStrip x),
        hcf2, hfd (pyStrip x), Option.map_some', hfc (pyStrip x)]
    · have hcf : clean_float f32 (pyStrip x) = pyStrip x := by
        rw [clean_float, if_neg hint, if_neg hfl]
      by_cases hdtm : dtMatches (pyStrip x) = true
      · by_cases hval : dtValidB (pyStrip x) = true
        · have hdt1 : datetime_to_yyyymmdd (pyStrip x)
              = some (dtOut (pyStrip x)) := by
            rw [datetime_to_yyyymmdd, if_pos hdtm, if_pos hval]
          have houtd := dtMatches_digits (pyStrip x) hdtm
          have houtne : dtOut (pyStrip x) ≠ [] := by simp [dtOut]
          have hout_noctl : removeCtl (dtOut (pyStrip x)) = dtOut (pyStrip x) :=
            List.filter_eq_self.mpr (fun c hc => by
              simpa using isCtl_eq_false_of_isDigit c (houtd c hc))
          have hostrip : pyStrip (dtOut (pyStrip x)) = dtOut (pyStrip x) :=
            pyStrip_eq_self_of_all _
              (fun c hc => isPySpace_eq_false_of_isDigit c (houtd c hc))
          have hint2 : pyIntAccepts (dtOut (pyStrip x)) = true :=
            pyIntAccepts_of_digits _ houtne houtd
          have hcf2 : clean_float f32 (dtOut (pyStrip x)) = dtOut (pyStrip x) := by
            rw [clean_float, if_pos hint2]
          have hdt2 : datetime_to_yyyymmdd (dtOut (pyStrip x))
              = some (dtOut (pyStrip x)) := by
            rw [datetime_to_yyyymmdd, if_neg ?_]
            intro hdt2'
            simp only [dtMatches, Bool.and_eq_true, decide_eq_true_eq] at hdt2'
            have := hdt2'.1
            simp [dtOut] at this
          have h1 : clean_cell f32 x = some (dtOut (pyStrip x)) := by
            rw [hcc f32 x, hcf, hdt1, Option.map_some', hout_noctl]
          rw [h1, Option.some_bind, hcc f32 (dtOut (pyStrip x)), hostrip, hcf2,
            hdt2, Option.map_some', hout_noctl]
        · have hdt1 : datetime_to_yyyymmdd (pyStrip x) = none := by
            rw [datetime_to_yyyymmdd, if_pos hdtm, if_neg hval]
          have h1 : clean_cell f32 x = none := by
            rw [hcc f32 x, hcf, hdt1]
            rfl
          rw [h1]
          rfl
      · have hdt1 : datetime_to_yyyymmdd (pyStrip x) = some (pyStrip x) := by
          rw [datetime_to_yyyymmdd, if_neg hdtm]
        have h1 : clean_cell f32 x = some (pyStrip x) := by
          rw [hcc f32 x, hcf, hdt1, Option.map_some', hs1ctl]
        rw [h1, Option.some_bind, hcc f32 (pyStrip x), hs1strip, hcf, hdt1,
          Option.map_some', hs1ctl]

theorem clean_cell_idempotent_witness :
    (clean_cell (fun _ => ['1', '.', '5']) "na".data).bind
        (clean_cell (fun _ => ['1', '.', '5']))
      = clean_cell (fun _ => ['1', '.', '5']) "na".data :=
  clean_cell_idempotent (fun _ => ['1', '.', '5'])
    (fun _ => rfl) (fun _ => rfl) (fun _ => rfl) (fun _ => rfl)
    "na".data (by decide)

end MoniSen
